import Mathlib

/-!
Verification of the video-learning-system core algorithms, shallowly embedded
from the Python sources:

  app/app.py (chunk selection, question assembly, question-count clamping),
  app/utils/subtitle_parser.py (group_by_topic),
  app/utils/feedback_generator.py (answer evaluation).

Python strings are modelled as List Char (or String where ids are built),
Python str.strip / str.lower / substring tests via the corresponding
List Char operations, Python integer rendering via decimal digit lists,
and the generative service as an arbitrary function parameter.
-/

namespace VLS

/-! ## Decimal rendering of the question counter.

Models the Python interpolation of the integer counter into the id string
"{video_id}_{start_time}_{counter}". We render little-endian digits with a
structural fuel (fuel at least n suffices) and reverse. -/

/-- Little-endian decimal digits of n, as characters, with structural fuel. -/
def natCharsAux : Nat → Nat → List Char
  | 0, _ => []
  | _ + 1, 0 => []
  | fuel + 1, n + 1 => Nat.digitChar ((n + 1) % 10) :: natCharsAux fuel ((n + 1) / 10)

/-- Decimal rendering of a natural number, as Python str renders a nonneg int. -/
def natChars (n : Nat) : List Char :=
  if n = 0 then ['0'] else (natCharsAux n n).reverse

/-- Decode a little-endian decimal digit character list. -/
def decodeLE : List Char → Nat
  | [] => 0
  | c :: r => (c.toNat - 48) + 10 * decodeLE r

/-- The maximal suffix after the last underscore of a character list. -/
def tailAfterUnd (l : List Char) : List Char :=
  (l.reverse.takeWhile (fun c => c != '_')).reverse

/-- The id assigned by the assembler: "{video_id}_{start_time}_{counter}",
with start_time already rendered to a string. Source: app/app.py lines 378,
406, 526, 559. -/
def mkId (video st : String) (c : Nat) : String :=
  String.mk (video.data ++ '_' :: (st.data ++ '_' :: natChars c))

/-- Recover the counter embedded at the tail of an assembler id. -/
def ctrOfId (s : String) : Nat :=
  decodeLE (tailAfterUnd s.data).reverse

lemma digitChar_toNat_sub : ∀ d, d < 10 → (Nat.digitChar d).toNat - 48 = d := by decide

lemma digitChar_ne_und : ∀ d, d < 10 → Nat.digitChar d ≠ '_' := by decide

lemma natCharsAux_ne_und : ∀ fuel n, ∀ c ∈ natCharsAux fuel n, c ≠ '_' := by
  intro fuel
  induction fuel with
  | zero => intro n c hc; simp [natCharsAux] at hc
  | succ fuel ih =>
    intro n c hc
    cases n with
    | zero => simp [natCharsAux] at hc
    | succ m =>
      simp only [natCharsAux, List.mem_cons] at hc
      rcases hc with h | h
      · subst h; exact digitChar_ne_und _ (Nat.mod_lt _ (by omega))
      · exact ih _ _ h

lemma natChars_ne_und : ∀ n, ∀ c ∈ natChars n, c ≠ '_' := by
  intro n c hc
  unfold natChars at hc
  split at hc
  · simp at hc; subst hc; decide
  · exact natCharsAux_ne_und _ _ _ (List.mem_reverse.mp hc)

lemma decodeLE_natCharsAux : ∀ fuel n, n ≤ fuel → decodeLE (natCharsAux fuel n) = n := by
  intro fuel
  induction fuel with
  | zero => intro n h; interval_cases n; simp [natCharsAux, decodeLE]
  | succ fuel ih =>
    intro n h
    cases n with
    | zero => simp [natCharsAux, decodeLE]
    | succ m =>
      have hdiv : (m + 1) / 10 ≤ fuel := by
        have := Nat.div_lt_self (Nat.succ_pos m) (by omega : 1 < 10)
        omega
      simp only [natCharsAux, decodeLE]
      rw [ih _ hdiv, digitChar_toNat_sub _ (Nat.mod_lt _ (by omega))]
      omega

lemma decodeLE_natChars (n : Nat) : decodeLE (natChars n).reverse = n := by
  unfold natChars
  split
  · next h => subst h; decide
  · rw [List.reverse_reverse]
    exact decodeLE_natCharsAux _ _ le_rfl

lemma takeWhile_append_of_all {p : Char → Bool} :
    ∀ (l r : List Char), (∀ c ∈ l, p c = true) →
      (l ++ r).takeWhile p = l ++ r.takeWhile p := by
  intro l
  induction l with
  | nil =>
    intro r _
    rfl
  | cons a l ih =>
    intro r h
    rw [List.cons_append, List.takeWhile_cons_of_pos (h a (List.mem_cons_self a l)),
      ih r (fun c hc => h c (List.mem_cons_of_mem a hc)), List.cons_append]

lemma tailAfterUnd_append (v d : List Char) (hd : ∀ c ∈ d, c ≠ '_') :
    tailAfterUnd (v ++ '_' :: d) = d := by
  have hall : ∀ c ∈ d.reverse, (c != '_') = true := fun c hc =>
    bne_iff_ne.mpr (hd c (List.mem_reverse.mp hc))
  have htw : ('_' :: v.reverse).takeWhile (fun c => c != '_') = [] := by
    rw [List.takeWhile_cons_of_neg]
    decide
  unfold tailAfterUnd
  rw [List.reverse_append, List.reverse_cons, List.append_assoc, List.singleton_append,
    takeWhile_append_of_all _ _ hall, htw, List.append_nil, List.reverse_reverse]

lemma ctrOfId_mkId (video st : String) (c : Nat) :
    ctrOfId (mkId video st c) = c := by
  unfold ctrOfId mkId
  have hshape : video.data ++ '_' :: (st.data ++ '_' :: natChars c)
      = (video.data ++ '_' :: st.data) ++ '_' :: natChars c := by
    simp
  show decodeLE (tailAfterUnd (video.data ++ '_' :: (st.data ++ '_' :: natChars c))).reverse = c
  rw [hshape, tailAfterUnd_append _ _ (natChars_ne_und c), decodeLE_natChars]

lemma mkId_ctr_inj {v s v' s' : String} {c c' : Nat}
    (h : mkId v s c = mkId v' s' c') : c = c' := by
  have := congrArg ctrOfId h
  rwa [ctrOfId_mkId, ctrOfId_mkId] at this

/-! ## Data model: transcript segments and chunks.

Times are kept at an arbitrary type alpha, since none of the verified logic
computes with them; the assembler renders a time to a string via a render
parameter (modelling the Python f-string interpolation of the float). -/

/-- A subtitle segment, as produced by the parser (app/utils/subtitle_parser.py). -/
structure Segment (α : Type) where
  index : Nat
  text : String
  start_time : α
  end_time : α
deriving DecidableEq

/-- A topic chunk, as produced by group_by_topic (app/utils/subtitle_parser.py,
lines 85-99). -/
structure Chunk (α : Type) where
  start_index : Nat
  end_index : Nat
  start_time : α
  end_time : α
  text : String
  segments : List (Segment α)
deriving DecidableEq

/-- One window of segments turned into a chunk: mirrors the group dict built at
subtitle_parser.py lines 91-98 for the slice segments[i:i+window_size]. -/
def mkGroup {α : Type} (s : Segment α) (rest : List (Segment α)) : Chunk α :=
  { start_index := s.index
    end_index := ((s :: rest).getLast (List.cons_ne_nil s rest)).index
    start_time := s.start_time
    end_time := ((s :: rest).getLast (List.cons_ne_nil s rest)).end_time
    text := String.intercalate " " ((s :: rest).map (fun seg => seg.text))
    segments := s :: rest }

/-- Segmenter: group_by_topic from subtitle_parser.py lines 75-101. The Python
loop walks i over range(0, len(segments), window_size) and emits the window
segments[i : i + window_size]; here the same windows arise by peeling
window_size elements at a time. -/
def group_by_topic {α : Type} (w : Nat) : List (Segment α) → List (Chunk α)
  | [] => []
  | s :: rest => mkGroup s (rest.take (w - 1)) :: group_by_topic w (rest.drop (w - 1))
termination_by l => l.length
decreasing_by simp [List.length_drop]; omega

/-- The window sizes that partitioning n segments into windows of 5 yields. -/
def windowLens5 : Nat → List Nat
  | 0 => []
  | n + 1 => min 5 (n + 1) :: windowLens5 (n - 4)

/-! ## Chunk selector.

Models app/app.py lines 335-360: all indices when there are at most
target_count chunks, otherwise stride-spaced indices with the defensive
backfill loop, a final sort and a truncation. -/

/-- The inner scan of the backfill branch (app.py lines 351-355): append the
first index of range(chunk_count) not already chosen, if any. -/
def backfillInner (chunkCount : Nat) (acc : List Nat) : List Nat :=
  match (List.range chunkCount).find? (fun j => !(acc.contains j)) with
  | some j => acc ++ [j]
  | none => acc

/-- One iteration of the backfill loop (app.py lines 347-355). -/
def backfillStep (chunkCount middleStart : Nat) (acc : List Nat) (i : Nat) : List Nat :=
  if middleStart + i < chunkCount && !(acc.contains (middleStart + i)) then
    acc ++ [middleStart + i]
  else backfillInner chunkCount acc

/-- Chunk selection, app/app.py lines 335-360 (the Python list .sort() is
modelled by insertion sort, which agrees with any sort on Nat lists). -/
def select (chunkCount targetCount : Nat) : List Nat :=
  if chunkCount ≤ targetCount then
    List.range chunkCount
  else
    let step := chunkCount / targetCount
    let idxs := (List.range targetCount).map (fun i => i * step)
    let idxs2 :=
      if idxs.length < targetCount then
        (List.range (targetCount - idxs.length)).foldl
          (backfillStep chunkCount (chunkCount / 3)) idxs
      else idxs
    (List.insertionSort (fun a b => a ≤ b) idxs2).take targetCount

/-! ## Evaluator (app/utils/feedback_generator.py).

User answers and stored answers are List Char. Python str.strip is modelled
by dropping whitespace at both ends, str.lower by Char.toLower, substring
membership (the Python in operator) by List.isInfixOf, str.split() by
splitting on whitespace, and str.isalpha by nonempty-and-all-alphabetic. -/

/-- Python str.strip(): drop whitespace from both ends. -/
def pyStrip (s : List Char) : List Char :=
  ((s.dropWhile Char.isWhitespace).reverse.dropWhile Char.isWhitespace).reverse

/-- Python str.lower() (ASCII case folding, as used by the evaluated inputs). -/
def pyLower (s : List Char) : List Char :=
  s.map Char.toLower

/-- strip().lower() normalization used for fill-in-the-blank answers
(feedback_generator.py lines 73-74). -/
def pyNorm (s : List Char) : List Char :=
  pyLower (pyStrip s)

/-- Python str.isalpha(): nonempty and every character alphabetic. -/
def pyIsAlpha (s : List Char) : Bool :=
  !(s.isEmpty) && s.all Char.isAlpha

/-- The three-way classification state of a fill-in-the-blank evaluation. -/
inductive FibResult : Type
  | correct
  | partialMatch
  | incorrect
deriving DecidableEq

/-- Fill-in-the-blank state machine, feedback_generator.py lines 71-85:
exact match after normalization, else substring either way, else incorrect. -/
def evalFib (correct_answer user_answer : List Char) : FibResult :=
  let ua := pyNorm user_answer
  let ca := pyNorm correct_answer
  if ua = ca then .correct
  else if ua <:+: ca ∨ ca <:+: ua then .partialMatch
  else .incorrect

/-- The correctness fields of the returned fill-in-the-blank feedback dict. -/
structure FibOutcome : Type where
  isCorrect : Bool
  isPartial : Bool
deriving DecidableEq

/-- The fill-in-the-blank branch of generate_feedback: is_correct is true
exactly for the correct state and is_partial exactly for the partial state
(feedback_generator.py lines 284, 298-299 and 313-315, identical in the
success and fallback paths). -/
def fibFeedback (correct_answer user_answer : List Char) : FibOutcome :=
  { isCorrect := decide (evalFib correct_answer user_answer = .correct)
    isPartial := decide (evalFib correct_answer user_answer = .partialMatch) }

/-- A multiple-choice question: option (id, text) pairs and the correct id. -/
structure MCQuestion : Type where
  options : List (List Char × List Char)
  correct_answer : List Char
deriving DecidableEq

/-- Multiple-choice correctness, feedback_generator.py line 68:
is_correct = (user_answer == question.get("correct_answer")). -/
def mcIsCorrect (q : MCQuestion) (user_answer : List Char) : Bool :=
  decide (user_answer = q.correct_answer)

/-- The correctness fields of a short-answer evaluation result. -/
structure SAResult : Type where
  isCorrect : Bool
  isPartial : Bool
  scorePercentage : Nat
deriving DecidableEq

/-- The length guard of _evaluate_short_answer, feedback_generator.py line 349:
len(strip) < 5, or purely alphabetic and len(strip) < 4. -/
def lengthGuardFails (user_answer : List Char) : Bool :=
  (pyStrip user_answer).length < 5 ||
    (pyIsAlpha (pyStrip user_answer) && (pyStrip user_answer).length < 4)

/-- Whether one key point matches: some constituent word longer than 3
characters appears, lower-cased, in the lower-cased answer
(feedback_generator.py lines 464-469). -/
def pointMatches (user_answer point : List Char) : Bool :=
  ((point.splitOnP Char.isWhitespace).filter (fun w => 3 < w.length)).any
    (fun w => decide (pyLower w <:+: pyLower user_answer))

/-- matched_points of the keyword heuristic, feedback_generator.py lines 463-469. -/
def matchedPoints (key_points : List (List Char)) (user_answer : List Char) : Nat :=
  (key_points.filter (fun p => pointMatches user_answer p)).length

/-- _evaluate_short_answer, feedback_generator.py lines 339-491, restricted to
its correctness fields. The generative scoring call is the svc parameter:
some score on success (lines 428-436), none when the call raises and the
except branch runs (lines 453-481). Python float division int(m / t * 60) is
modelled exactly as the rational floor 60 * m / t. -/
def evaluate_short_answer (svc : Option Nat) (key_points : List (List Char))
    (user_answer : List Char) : SAResult :=
  if lengthGuardFails user_answer then
    { isCorrect := false, isPartial := false, scorePercentage := 0 }
  else
    match svc with
    | some score =>
        { isCorrect := decide (75 ≤ score)
          isPartial := decide (30 ≤ score ∧ score < 75)
          scorePercentage := score }
    | none =>
        if (pyStrip user_answer).length < 5 then
          { isCorrect := decide (75 ≤ (0 : Nat))
            isPartial := decide (30 ≤ (0 : Nat) ∧ (0 : Nat) < 75)
            scorePercentage := 0 }
        else
          let m := matchedPoints key_points user_answer
          let score := if 0 < m then min 70 (60 * m / key_points.length) else 0
          { isCorrect := decide (75 ≤ score)
            isPartial := decide (30 ≤ score ∧ score < 75)
            scorePercentage := score }

/-! ## Question-count clamping (app/app.py lines 277-284).

The request value is modelled after the int() call: some n when it parses,
none when int() raises ValueError or TypeError. -/

/-- Clamp the requested question count into 10..20, app.py lines 277-284. -/
def clampQuestionCount : Option Int → Int
  | none => 10
  | some n => if n < 10 then 10 else if n > 20 then 20 else n

/-! ## Item assembler (app/app.py lines 298-412).

A generated question is modelled by its question_id together with an opaque
payload standing for the remaining fields, which the assembler never touches.
The question_generator.generate_from_text call (which never raises: its
exception handler substitutes fallback items, question_generator.py lines
200-202) is an arbitrary function parameter gen; a run in which the
generative service fails on every chunk is the instance where gen returns
the fallback items everywhere. -/

/-- A generated question: its id and the untouched remaining fields. -/
structure QItem (β : Type) where
  question_id : String
  payload : β
deriving DecidableEq

/-- The inner loop at app.py lines 376-379: overwrite each question id with
"{video_id}_{start_time}_{counter}" and bump the counter once per item. -/
def assignIds {β : Type} (video st : String) : List (QItem β) → Nat → List (QItem β) × Nat
  | [], c => ([], c)
  | q :: qs, c =>
    let r := assignIds video st qs (c + 1)
    (⟨mkId video st c, q.payload⟩ :: r.1, r.2)

/-- First generation pass over the selected indices (app.py lines 363-385):
skip out-of-range indices, generate per chunk, overwrite ids, extend, and
stop once the accumulator reached the requested count. -/
def phase1 {α β : Type} (chunks : List (Chunk α)) (video : String)
    (gen : Chunk α → List (QItem β)) (render : α → String) (qcount : Nat) :
    List Nat → List (QItem β) → Nat → List (QItem β) × Nat
  | [], acc, c => (acc, c)
  | idx :: rest, acc, c =>
    match chunks[idx]? with
    | none => phase1 chunks video gen render qcount rest acc c
    | some ch =>
      let r := assignIds video (render ch.start_time) (gen ch) c
      let acc2 := acc ++ r.1
      if qcount ≤ acc2.length then (acc2, r.2)
      else phase1 chunks video gen render qcount rest acc2 r.2

/-- Second generation pass over unused indices (app.py lines 393-409):
as phase1 but with no early stop. -/
def phase2 {α β : Type} (chunks : List (Chunk α)) (video : String)
    (gen : Chunk α → List (QItem β)) (render : α → String) :
    List Nat → List (QItem β) → Nat → List (QItem β) × Nat
  | [], acc, c => (acc, c)
  | idx :: rest, acc, c =>
    match chunks[idx]? with
    | none => phase2 chunks video gen render rest acc c
    | some ch =>
      let r := assignIds video (render ch.start_time) (gen ch) c
      phase2 chunks video gen render rest (acc ++ r.1) r.2

/-- The assembly run of generate_questions (app.py lines 298-412): select
indices, run the first pass from counter 0, optionally backfill from the
unused indices (lines 388-409), and truncate to the requested count
(line 412). -/
def assemble {α β : Type} (chunks : List (Chunk α)) (video : String) (qcount : Nat)
    (gen : Chunk α → List (QItem β)) (render : α → String) : List (QItem β) :=
  let idxs := select chunks.length qcount
  let p1 := phase1 chunks video gen render qcount idxs [] 0
  let unused := (List.range chunks.length).filter (fun i => !(idxs.contains i))
  let p2 :=
    if p1.1.length < qcount ∧ 0 < chunks.length then
      phase2 chunks video gen render
        (unused.take (min (qcount - p1.1.length) unused.length)) p1.1 p1.2
    else p1
  p2.1.take qcount

/-! ## Properties of the chunk selector. -/

lemma select_eq_range {c t : Nat} (h : c ≤ t) : select c t = List.range c := by
  unfold select
  rw [if_pos h]

lemma select_eq_map {c t : Nat} (h : t < c) :
    select c t = (List.range t).map (fun i => i * (c / t)) := by
  unfold select
  rw [if_neg (by omega)]
  simp only [List.length_map, List.length_range, lt_irrefl, if_false]
  have hs : List.Sorted (fun a b => a ≤ b)
      ((List.range t).map (fun i => i * (c / t))) :=
    List.pairwise_map.mpr ((List.pairwise_lt_range t).imp
      (fun hab => Nat.mul_le_mul_right _ (le_of_lt hab)))
  rw [hs.insertionSort_eq]
  exact List.take_of_length_le (by simp)

/-- Claim C1: for every chunk_count and target_count at least 1, chunk
selection returns a strictly increasing sequence of indices of length
min(chunk_count, target_count), all within [0, chunk_count); moreover
select 8 4 = [0, 2, 4, 6], select 3 10 = [0, 1, 2] and select 0 5 = []. -/
theorem select_spec (c t : Nat) (ht : 1 ≤ t) :
    ((select c t).length = min c t ∧
      (select c t).Pairwise (fun a b => a < b) ∧
      ∀ x ∈ select c t, x < c) ∧
    select 8 4 = [0, 2, 4, 6] ∧ select 3 10 = [0, 1, 2] ∧ select 0 5 = [] := by
  refine ⟨?_, by decide, by decide, by decide⟩
  by_cases h : c ≤ t
  · rw [select_eq_range h]
    exact ⟨by simp [Nat.min_eq_left h], List.pairwise_lt_range c,
      fun x hx => List.mem_range.mp hx⟩
  · push_neg at h
    rw [select_eq_map h]
    have hstep : 1 ≤ c / t := (Nat.one_le_div_iff (by omega)).mpr (by omega)
    refine ⟨by simp [Nat.min_eq_right (le_of_lt h)], ?_, ?_⟩
    · refine List.pairwise_map.mpr ((List.pairwise_lt_range t).imp ?_)
      intro a b hab
      have hexp : (a + 1) * (c / t) = a * (c / t) + c / t := by ring
      have hle : (a + 1) * (c / t) ≤ b * (c / t) := Nat.mul_le_mul_right _ (by omega)
      omega
    · intro x hx
      obtain ⟨i, hi, rfl⟩ := List.mem_map.mp hx
      have hi' : i < t := List.mem_range.mp hi
      have h1 : (i + 1) * (c / t) ≤ t * (c / t) := Nat.mul_le_mul_right _ (by omega)
      have h2 : t * (c / t) ≤ c := by
        rw [Nat.mul_comm]
        exact Nat.div_mul_le_self c t
      have hexp : (i + 1) * (c / t) = i * (c / t) + c / t := by ring
      omega

/-- Witness for select_spec at chunk_count 8, target_count 4. -/
theorem select_spec_witness :
    1 ≤ 4 ∧ (((select 8 4).length = min 8 4 ∧
      (select 8 4).Pairwise (fun a b => a < b) ∧
      ∀ x ∈ select 8 4, x < 8) ∧
    select 8 4 = [0, 2, 4, 6] ∧ select 3 10 = [0, 1, 2] ∧ select 0 5 = []) :=
  ⟨by decide, select_spec 8 4 (by decide)⟩

/-! ## Properties of the assembler: counter-based id uniqueness. -/

/-- The assembly invariant: the item at position i carries the id built from
the video id, the rendered start time of some chunk of the run, and counter
value exactly i (the counter starts at 0 and is bumped once per item). -/
def GoodAcc {α β : Type} (video : String) (chunks : List (Chunk α)) (render : α → String)
    (acc : List (QItem β)) : Prop :=
  ∀ i (h : i < acc.length), ∃ ch ∈ chunks,
    acc[i].question_id = mkId video (render ch.start_time) i

lemma assignIds_length {β : Type} (video st : String) :
    ∀ (qs : List (QItem β)) (c : Nat), ((assignIds video st qs c).1).length = qs.length := by
  intro qs
  induction qs with
  | nil => intro c; simp [assignIds]
  | cons q qs ih => intro c; simp [assignIds, ih]

lemma assignIds_snd {β : Type} (video st : String) :
    ∀ (qs : List (QItem β)) (c : Nat), (assignIds video st qs c).2 = c + qs.length := by
  intro qs
  induction qs with
  | nil => intro c; simp [assignIds]
  | cons q qs ih => intro c; simp [assignIds, ih]; omega

lemma assignIds_get {β : Type} (video st : String) :
    ∀ (qs : List (QItem β)) (c i : Nat) (h : i < ((assignIds video st qs c).1).length),
      ((assignIds video st qs c).1)[i].question_id = mkId video st (c + i) := by
  intro qs
  induction qs with
  | nil => intro c i h; rw [assignIds_length] at h; simp at h
  | cons q qs ih =>
    intro c i h
    cases i with
    | zero => simp [assignIds]
    | succ i =>
      have h' : i < ((assignIds video st qs (c + 1)).1).length := by
        rw [assignIds_length]
        rw [assignIds_length] at h
        simpa using Nat.lt_of_succ_lt_succ h
      have := ih (c + 1) i h'
      simp only [assignIds, List.getElem_cons_succ]
      rw [this]
      congr 1
      omega

lemma goodAcc_append {α β : Type} {video : String} {chunks : List (Chunk α)}
    {render : α → String} {acc : List (QItem β)} {ch : Chunk α} (hch : ch ∈ chunks)
    (hacc : GoodAcc video chunks render acc) (qs : List (QItem β)) :
    GoodAcc video chunks render
      (acc ++ (assignIds video (render ch.start_time) qs acc.length).1) := by
  intro i h
  rw [List.length_append, assignIds_length] at h
  by_cases hi : i < acc.length
  · obtain ⟨ch', hch', hid⟩ := hacc i hi
    exact ⟨ch', hch', by rw [List.getElem_append_left hi]; exact hid⟩
  · push_neg at hi
    refine ⟨ch, hch, ?_⟩
    rw [List.getElem_append_right hi, assignIds_get]
    congr 1
    omega

lemma phase1_spec {α β : Type} (chunks : List (Chunk α)) (video : String)
    (gen : Chunk α → List (QItem β)) (render : α → String) (qcount : Nat) :
    ∀ (idxs : List Nat) (acc : List (QItem β)) (c : Nat),
      GoodAcc video chunks render acc → c = acc.length →
      GoodAcc video chunks render (phase1 chunks video gen render qcount idxs acc c).1 ∧
      (phase1 chunks video gen render qcount idxs acc c).2
        = (phase1 chunks video gen render qcount idxs acc c).1.length := by
  intro idxs
  induction idxs with
  | nil => intro acc c hg hc; exact ⟨hg, hc⟩
  | cons idx rest ih =>
    intro acc c hg hc
    cases hidx : chunks[idx]? with
    | none =>
      simp only [phase1, hidx]
      exact ih acc c hg hc
    | some ch =>
      have hch : ch ∈ chunks := by
        obtain ⟨hlt, hget⟩ := List.getElem?_eq_some.mp hidx
        exact hget ▸ List.getElem_mem hlt
      subst hc
      have hg2 := goodAcc_append hch hg (gen ch)
      have hlen2 : (assignIds video (render ch.start_time) (gen ch) acc.length).2
          = (acc ++ (assignIds video (render ch.start_time) (gen ch) acc.length).1).length := by
        rw [List.length_append, assignIds_length, assignIds_snd]
      simp only [phase1, hidx]
      by_cases hq : qcount ≤ (acc ++ (assignIds video (render ch.start_time) (gen ch) acc.length).1).length
      · rw [if_pos hq]
        exact ⟨hg2, hlen2⟩
      · rw [if_neg hq]
        exact ih _ _ hg2 hlen2

lemma phase2_spec {α β : Type} (chunks : List (Chunk α)) (video : String)
    (gen : Chunk α → List (QItem β)) (render : α → String) :
    ∀ (idxs : List Nat) (acc : List (QItem β)) (c : Nat),
      GoodAcc video chunks render acc → c = acc.length →
      GoodAcc video chunks render (phase2 chunks video gen render idxs acc c).1 ∧
      (phase2 chunks video gen render idxs acc c).2
        = (phase2 chunks video gen render idxs acc c).1.length := by
  intro idxs
  induction idxs with
  | nil => intro acc c hg hc; exact ⟨hg, hc⟩
  | cons idx rest ih =>
    intro acc c hg hc
    cases hidx : chunks[idx]? with
    | none =>
      simp only [phase2, hidx]
      exact ih acc c hg hc
    | some ch =>
      have hch : ch ∈ chunks := by
        obtain ⟨hlt, hget⟩ := List.getElem?_eq_some.mp hidx
        exact hget ▸ List.getElem_mem hlt
      subst hc
      simp only [phase2, hidx]
      refine ih _ _ (goodAcc_append hch hg (gen ch)) ?_
      rw [List.length_append, assignIds_length, assignIds_snd]

lemma goodAcc_conclusions {α β : Type} {video : String} {chunks : List (Chunk α)}
    {render : α → String} {L : List (QItem β)} (q : Nat)
    (hg : GoodAcc video chunks render L) :
    (L.take q).length ≤ q ∧
    (L.take q).Pairwise (fun a b => a.question_id ≠ b.question_id) ∧
    ∀ i (h : i < (L.take q).length), ∃ ch ∈ chunks,
      (L.take q)[i].question_id = mkId video (render ch.start_time) i := by
  have htake : GoodAcc video chunks render (L.take q) := by
    intro i h
    have hi : i < L.length := by
      rw [List.length_take] at h
      omega
    obtain ⟨ch, hch, hid⟩ := hg i hi
    exact ⟨ch, hch, by rw [List.getElem_take]; exact hid⟩
  refine ⟨by rw [List.length_take]; exact min_le_left _ _, ?_, htake⟩
  rw [List.pairwise_iff_getElem]
  intro i j hi hj hij heq
  obtain ⟨ci, hci, hidi⟩ := htake i hi
  obtain ⟨cj, hcj, hidj⟩ := htake j hj
  have hmk : mkId video (render ci.start_time) i = mkId video (render cj.start_time) j := by
    rw [← hidi, ← hidj]
    exact heq
  have := mkId_ctr_inj hmk
  omega

/-- Claim C2: for every chunk sequence, video id, target count and generation
behavior (hence also when the generative service fails on every chunk and
gen returns the fallback items), the assembler returns at most target_count
items, no two returned items share a question_id, and the item kept at
position i carries the id video_id, underscore, rendered chunk start time,
underscore, counter value i — the counter starting at 0 and bumped exactly
once per appended item, never reset. -/
theorem assemble_unique_ids {α β : Type} (chunks : List (Chunk α)) (video : String)
    (qcount : Nat) (gen : Chunk α → List (QItem β)) (render : α → String) :
    (assemble chunks video qcount gen render).length ≤ qcount ∧
    (assemble chunks video qcount gen render).Pairwise
      (fun a b => a.question_id ≠ b.question_id) ∧
    ∀ i (h : i < (assemble chunks video qcount gen render).length),
      ∃ ch ∈ chunks, (assemble chunks video qcount gen render)[i].question_id
        = mkId video (render ch.start_time) i := by
  have h0 : GoodAcc video chunks render ([] : List (QItem β)) := by
    intro i h
    simp at h
  obtain ⟨hg1, hc1⟩ := phase1_spec chunks video gen render qcount
    (select chunks.length qcount) [] 0 h0 rfl
  unfold assemble
  by_cases hcond : (phase1 chunks video gen render qcount
      (select chunks.length qcount) [] 0).1.length < qcount ∧ 0 < chunks.length
  · simp only [if_pos hcond]
    obtain ⟨hg2, _⟩ := phase2_spec chunks video gen render _ _ _ hg1 hc1
    exact goodAcc_conclusions qcount hg2
  · simp only [if_neg hcond]
    exact goodAcc_conclusions qcount hg1

/-- Concrete inputs for the assembler witness. -/
def chunksW : List (Chunk Nat) :=
  [{ start_index := 1, end_index := 1, start_time := 7, end_time := 9,
     text := "t", segments := [] }]

/-- Concrete generation behavior for the assembler witness. -/
def genW : Chunk Nat → List (QItem Unit) := fun _ => [⟨"x", ()⟩, ⟨"y", ()⟩]

/-- Concrete time rendering for the assembler witness. -/
def renderW : Nat → String := fun n => String.mk (natChars n)

/-- Witness for assemble_unique_ids on a one-chunk run requesting 3 items. -/
theorem assemble_unique_ids_witness :
    (assemble chunksW "v" 3 genW renderW).length ≤ 3 ∧
    (assemble chunksW "v" 3 genW renderW).Pairwise
      (fun a b => a.question_id ≠ b.question_id) ∧
    ∃ ch ∈ chunksW, ((assemble chunksW "v" 3 genW renderW).get
      ⟨0, by decide⟩).question_id = mkId "v" (renderW ch.start_time) 0 := by
  refine ⟨(assemble_unique_ids chunksW "v" 3 genW renderW).1,
    (assemble_unique_ids chunksW "v" 3 genW renderW).2.1, ?_⟩
  have h := (assemble_unique_ids chunksW "v" 3 genW renderW).2.2 0 (by decide)
  simpa [List.get_eq_getElem] using h

/-! ## Evaluator theorems. -/

/-- Claim C3: fill-in-the-blank evaluation normalizes both strings by trim
and lower-case, classifies exact match as correct, else substring either way
as partial, else incorrect; is_correct holds only in the correct state and
is_partial only in the partial state; and the item with correct answer
photosynthesis evaluated on photo yields is_partial true, is_correct false. -/
theorem fill_in_blank_spec (ca ua : List Char) :
    (pyNorm ua = pyNorm ca → evalFib ca ua = FibResult.correct) ∧
    (pyNorm ua ≠ pyNorm ca → (pyNorm ua <:+: pyNorm ca ∨ pyNorm ca <:+: pyNorm ua) →
      evalFib ca ua = FibResult.partialMatch) ∧
    (pyNorm ua ≠ pyNorm ca → ¬(pyNorm ua <:+: pyNorm ca ∨ pyNorm ca <:+: pyNorm ua) →
      evalFib ca ua = FibResult.incorrect) ∧
    ((fibFeedback ca ua).isCorrect = true ↔ evalFib ca ua = FibResult.correct) ∧
    ((fibFeedback ca ua).isPartial = true ↔ evalFib ca ua = FibResult.partialMatch) ∧
    fibFeedback "photosynthesis".data "photo".data = ⟨false, true⟩ := by
  refine ⟨?_, ?_, ?_, by simp [fibFeedback], by simp [fibFeedback], by decide⟩
  · intro h
    simp [evalFib, h]
  · intro h hsub
    simp only [evalFib]
    rw [if_neg h, if_pos hsub]
  · intro h hsub
    simp only [evalFib]
    rw [if_neg h, if_neg hsub]

/-- Witness for fill_in_blank_spec on the photosynthesis example. -/
theorem fill_in_blank_spec_witness :
    pyNorm "photo".data ≠ pyNorm "photosynthesis".data ∧
    (pyNorm "photo".data <:+: pyNorm "photosynthesis".data ∨
      pyNorm "photosynthesis".data <:+: pyNorm "photo".data) ∧
    evalFib "photosynthesis".data "photo".data = FibResult.partialMatch :=
  ⟨by decide, by decide,
    (fill_in_blank_spec "photosynthesis".data "photo".data).2.1 (by decide) (by decide)⟩

/-- Claim C9: a user answer that normalizes to the empty string is always
classified as partial (never incorrect) whenever the correct answer
normalizes to a non-empty string, because the empty string is a substring of
every string. -/
theorem fill_in_blank_empty_answer (ca ua : List Char)
    (hua : pyNorm ua = []) (hca : pyNorm ca ≠ []) :
    fibFeedback ca ua = ⟨false, true⟩ := by
  have hne : pyNorm ua ≠ pyNorm ca := by
    rw [hua]
    exact fun h => hca h.symm
  have hsub : pyNorm ua <:+: pyNorm ca := by
    rw [hua]
    exact List.nil_infix
  have hfib : evalFib ca ua = FibResult.partialMatch := by
    simp only [evalFib]
    rw [if_neg hne, if_pos (Or.inl hsub)]
  simp [fibFeedback, hfib]

/-- Witness for fill_in_blank_empty_answer on a whitespace-only answer. -/
theorem fill_in_blank_empty_answer_witness :
    pyNorm "   ".data = [] ∧ pyNorm "x".data ≠ [] ∧
    fibFeedback "x".data "   ".data = ⟨false, true⟩ :=
  ⟨by decide, by decide, fill_in_blank_empty_answer "x".data "   ".data (by decide) (by decide)⟩

/-- Claim C7: multiple-choice correctness is the exact, case-sensitive
equality of the user answer with the correct option id; it never looks at
the option texts; and the item with correct answer B evaluated on b yields
is_correct false. -/
theorem multiple_choice_exact (q : MCQuestion) (ua : List Char) :
    (mcIsCorrect q ua = true ↔ ua = q.correct_answer) ∧
    (∀ q' : MCQuestion, q'.correct_answer = q.correct_answer →
      mcIsCorrect q' ua = mcIsCorrect q ua) ∧
    mcIsCorrect ⟨[], "B".data⟩ "b".data = false := by
  refine ⟨by simp [mcIsCorrect], ?_, by decide⟩
  intro q' h
  simp [mcIsCorrect, h]

/-- Witness for multiple_choice_exact on the B versus b example. -/
theorem multiple_choice_exact_witness :
    (mcIsCorrect ⟨[], "B".data⟩ "b".data = true ↔ "b".data = "B".data) ∧
    mcIsCorrect ⟨[("B".data, "option text".data)], "B".data⟩ "b".data
      = mcIsCorrect ⟨[], "B".data⟩ "b".data :=
  ⟨(multiple_choice_exact ⟨[], "B".data⟩ "b".data).1,
    (multiple_choice_exact ⟨[], "B".data⟩ "b".data).2.1
      ⟨[("B".data, "option text".data)], "B".data⟩ rfl⟩

/-- Claim C5: when the trimmed short answer has fewer than 5 characters, or
is purely alphabetic with fewer than 4 characters, the evaluator returns
score 0 and both flags false regardless of the generative scoring service
(which is therefore never consulted); in particular on the answer grb. -/
theorem short_answer_guard :
    (∀ (svc : Option Nat) (kps : List (List Char)) (ua : List Char),
      lengthGuardFails ua = true →
      evaluate_short_answer svc kps ua
        = { isCorrect := false, isPartial := false, scorePercentage := 0 }) ∧
    ∀ (svc : Option Nat) (kps : List (List Char)),
      evaluate_short_answer svc kps "grb".data
        = { isCorrect := false, isPartial := false, scorePercentage := 0 } := by
  have hmain : ∀ (svc : Option Nat) (kps : List (List Char)) (ua : List Char),
      lengthGuardFails ua = true →
      evaluate_short_answer svc kps ua
        = { isCorrect := false, isPartial := false, scorePercentage := 0 } := by
    intro svc kps ua h
    simp [evaluate_short_answer, h]
  exact ⟨hmain, fun svc kps => hmain svc kps "grb".data (by decide)⟩

/-- Witness for short_answer_guard: grb with a service that would have
returned a high score. -/
theorem short_answer_guard_witness :
    lengthGuardFails "grb".data = true ∧
    evaluate_short_answer (some 90) [] "grb".data
      = { isCorrect := false, isPartial := false, scorePercentage := 0 } :=
  ⟨by decide, short_answer_guard.1 (some 90) [] "grb".data (by decide)⟩

lemma eval_none_score (kps : List (List Char)) (ua : List Char)
    (hg : lengthGuardFails ua = false) :
    (evaluate_short_answer none kps ua).scorePercentage
      = if 0 < matchedPoints kps ua
          then min 70 (60 * matchedPoints kps ua / kps.length) else 0 := by
  have h5 : ¬((pyStrip ua).length < 5) := by
    simp only [lengthGuardFails, Bool.or_eq_false_iff, decide_eq_false_iff_not] at hg
    exact hg.1
  simp only [evaluate_short_answer]
  rw [if_neg (by simp [hg]), if_neg (by simpa using h5)]

lemma eval_none_flags (kps : List (List Char)) (ua : List Char)
    (hg : lengthGuardFails ua = false) :
    (evaluate_short_answer none kps ua).isCorrect
      = decide (75 ≤ (evaluate_short_answer none kps ua).scorePercentage) ∧
    (evaluate_short_answer none kps ua).isPartial
      = decide (30 ≤ (evaluate_short_answer none kps ua).scorePercentage ∧
          (evaluate_short_answer none kps ua).scorePercentage < 75) := by
  have h5 : ¬((pyStrip ua).length < 5) := by
    simp only [lengthGuardFails, Bool.or_eq_false_iff, decide_eq_false_iff_not] at hg
    exact hg.1
  simp only [evaluate_short_answer]
  rw [if_neg (by simp [hg]), if_neg (by simpa using h5)]
  exact ⟨rfl, rfl⟩

/-- Claim C4, amended: the keyword-overlap fallback score is
min(70, floor(matched / total * 60)) — the Python int() truncation, not
round() — so it never exceeds 70 and never reports a perfect score, and the
flags are is_correct = score at least 75, is_partial = score in 30..74. -/
theorem short_answer_fallback_floor (kps : List (List Char)) (ua : List Char)
    (hg : lengthGuardFails ua = false) :
    (evaluate_short_answer none kps ua).scorePercentage
      = (if 0 < matchedPoints kps ua
          then min 70 (60 * matchedPoints kps ua / kps.length) else 0) ∧
    (evaluate_short_answer none kps ua).scorePercentage ≤ 70 ∧
    (evaluate_short_answer none kps ua).scorePercentage < 100 ∧
    (evaluate_short_answer none kps ua).isCorrect
      = decide (75 ≤ (evaluate_short_answer none kps ua).scorePercentage) ∧
    (evaluate_short_answer none kps ua).isPartial
      = decide (30 ≤ (evaluate_short_answer none kps ua).scorePercentage ∧
          (evaluate_short_answer none kps ua).scorePercentage < 75) := by
  obtain ⟨hc, hp⟩ := eval_none_flags kps ua hg
  have hs := eval_none_score kps ua hg
  have hle : (evaluate_short_answer none kps ua).scorePercentage ≤ 70 := by
    rw [hs]
    split
    · exact min_le_left _ _
    · omega
  exact ⟨hs, hle, by omega, hc, hp⟩

/-- Witness for short_answer_fallback_floor: seven single-word key points and
the answer apple, which matches exactly one of them. -/
def kpsC4 : List (List Char) :=
  ["apple", "bravo", "candle", "delta", "eagle", "fancy", "grape"].map String.data

/-- The rounding the claim asserts, following the words of the spec:
round(matched / total * 60) as a rational rounded half-up (at the
counterexample value 60/7 every rounding convention agrees). -/
def specRound (num den : Nat) : Nat := (2 * num + den) / (2 * den)

/-- Counterexample to claim C4 as stated: with seven key points and the
answer apple (one matched point, guard passed, service failed), the code
computes int(1/7*60) = 8, while the claimed formula round(1/7*60) gives 9. -/
theorem short_answer_round_counterexample :
    lengthGuardFails "apple".data = false ∧
    matchedPoints kpsC4 "apple".data = 1 ∧
    (evaluate_short_answer none kpsC4 "apple".data).scorePercentage = 8 ∧
    min 70 (specRound (60 * matchedPoints kpsC4 "apple".data) kpsC4.length) = 9 ∧
    (evaluate_short_answer none kpsC4 "apple".data).scorePercentage
      ≠ min 70 (specRound (60 * matchedPoints kpsC4 "apple".data) kpsC4.length) :=
  ⟨by decide, by decide, by decide, by decide, by decide⟩

/-- Witness for short_answer_fallback_floor at the concrete apple input. -/
theorem short_answer_fallback_floor_witness :
    lengthGuardFails "apple".data = false ∧
    (evaluate_short_answer none kpsC4 "apple".data).scorePercentage
      = (if 0 < matchedPoints kpsC4 "apple".data
          then min 70 (60 * matchedPoints kpsC4 "apple".data / kpsC4.length) else 0) ∧
    (evaluate_short_answer none kpsC4 "apple".data).scorePercentage ≤ 70 :=
  ⟨by decide, (short_answer_fallback_floor kpsC4 "apple".data (by decide)).1,
    (short_answer_fallback_floor kpsC4 "apple".data (by decide)).2.1⟩

/-- Claim C6: with the service failing and both answers passing the guard,
the fallback score is monotonic in the number of matched key points: an
answer matching strictly more key points never scores lower. -/
theorem short_answer_fallback_monotone (kps : List (List Char)) (a1 a2 : List Char)
    (h1 : lengthGuardFails a1 = false) (h2 : lengthGuardFails a2 = false)
    (hm : matchedPoints kps a2 < matchedPoints kps a1) :
    (evaluate_short_answer none kps a2).scorePercentage
      ≤ (evaluate_short_answer none kps a1).scorePercentage := by
  rw [eval_none_score kps a1 h1, eval_none_score kps a2 h2]
  by_cases hz : 0 < matchedPoints kps a2
  · rw [if_pos hz, if_pos (by omega)]
    exact min_le_min le_rfl
      (Nat.div_le_div_right (Nat.mul_le_mul_left 60 (le_of_lt hm)))
  · rw [if_neg hz]
    omega

/-- Witness for short_answer_fallback_monotone: the answer matching both key
points scores 60, the answer matching one scores 30. -/
theorem short_answer_fallback_monotone_witness :
    lengthGuardFails "apple bravo!".data = false ∧
    lengthGuardFails "apple".data = false ∧
    matchedPoints (["apple", "bravo"].map String.data) "apple".data
      < matchedPoints (["apple", "bravo"].map String.data) "apple bravo!".data ∧
    (evaluate_short_answer none (["apple", "bravo"].map String.data)
        "apple".data).scorePercentage
      ≤ (evaluate_short_answer none (["apple", "bravo"].map String.data)
        "apple bravo!".data).scorePercentage :=
  ⟨by decide, by decide, by decide,
    short_answer_fallback_monotone (["apple", "bravo"].map String.data)
      "apple bravo!".data "apple".data (by decide) (by decide) (by decide)⟩

/-! ## Segmenter theorems. -/

lemma group_join_aux {α : Type} (w : Nat) :
    ∀ (n : Nat) (segs : List (Segment α)), segs.length ≤ n →
      ((group_by_topic w segs).map (fun c => c.segments)).flatten = segs := by
  intro n
  induction n with
  | zero =>
    intro segs h
    have hnil : segs = [] := List.eq_nil_of_length_eq_zero (by omega)
    subst hnil
    simp [group_by_topic]
  | succ n ih =>
    intro segs h
    cases segs with
    | nil => simp [group_by_topic]
    | cons s rest =>
      rw [group_by_topic]
      simp only [List.map_cons, List.flatten_cons]
      rw [ih (rest.drop (w - 1)) (by
        rw [List.length_drop]
        simp at h
        omega)]
      show (mkGroup s (rest.take (w - 1))).segments ++ rest.drop (w - 1) = s :: rest
      simp only [mkGroup, List.cons_append]
      rw [List.take_append_drop]

lemma group_mem_aux {α : Type} (w : Nat) (hw : 1 ≤ w) :
    ∀ (n : Nat) (segs : List (Segment α)), segs.length ≤ n →
      ∀ c ∈ group_by_topic w segs,
        c.segments ≠ [] ∧ c.segments.length ≤ w ∧
        c.text = String.intercalate " " (c.segments.map (fun seg => seg.text)) ∧
        ∃ lastSeg, c.segments.getLast? = some lastSeg ∧ c.end_time = lastSeg.end_time := by
  intro n
  induction n with
  | zero =>
    intro segs h
    have hnil : segs = [] := List.eq_nil_of_length_eq_zero (by omega)
    subst hnil
    simp [group_by_topic]
  | succ n ih =>
    intro segs h
    cases segs with
    | nil => simp [group_by_topic]
    | cons s rest =>
      rw [group_by_topic]
      intro c hc
      rcases List.mem_cons.mp hc with hhead | htail
      · subst hhead
        refine ⟨by simp [mkGroup], ?_, rfl, ?_⟩
        · simp only [mkGroup, List.length_cons, List.length_take]
          omega
        · exact ⟨(s :: rest.take (w - 1)).getLast (List.cons_ne_nil _ _),
            List.getLast?_eq_getLast _ _, rfl⟩
      · exact ih (rest.drop (w - 1)) (by
          rw [List.length_drop]
          simp at h
          omega) c htail

lemma windowLens5_succ (n : Nat) :
    windowLens5 (n + 1) = min 5 (n + 1) :: windowLens5 (n - 4) := by
  rw [windowLens5]

lemma group_lens_aux {α : Type} :
    ∀ (n : Nat) (segs : List (Segment α)), segs.length ≤ n →
      (group_by_topic 5 segs).map (fun c => c.segments.length) = windowLens5 segs.length := by
  intro n
  induction n with
  | zero =>
    intro segs h
    have hnil : segs = [] := List.eq_nil_of_length_eq_zero (by omega)
    subst hnil
    simp [group_by_topic, windowLens5]
  | succ n ih =>
    intro segs h
    cases segs with
    | nil => simp [group_by_topic, windowLens5]
    | cons s rest =>
      rw [group_by_topic]
      simp only [List.map_cons, List.length_cons]
      rw [ih (rest.drop 4) (by
        rw [List.length_drop]
        simp at h
        omega)]
      rw [windowLens5_succ, List.length_drop]
      congr 1
      simp only [mkGroup, List.length_cons, List.length_take]
      omega

lemma windowLens5_ne_nil {n : Nat} (hn : n ≠ 0) : windowLens5 n ≠ [] := by
  cases n with
  | zero => omega
  | succ m => rw [windowLens5_succ]; exact List.cons_ne_nil _ _

lemma windowLens5_dropLast :
    ∀ n : Nat, ∀ x ∈ (windowLens5 n).dropLast, x = 5 := by
  intro n
  induction n using Nat.strong_induction_on with
  | _ n ih =>
    cases n with
    | zero => simp [windowLens5]
    | succ m =>
      rw [windowLens5_succ]
      cases h4 : windowLens5 (m - 4) with
      | nil => simp
      | cons b l =>
        have hm : m - 4 ≠ 0 := by
          intro h0
          rw [h0] at h4
          simp [windowLens5] at h4
        rw [← h4, List.dropLast_cons_of_ne_nil (h4 ▸ List.cons_ne_nil b l)]
        intro x hx
        rcases List.mem_cons.mp hx with hx | hx
        · omega
        · exact ih (m - 4) (by omega) x hx

/-- Claim C8: group_by_topic with window size 5 partitions the segments into
contiguous, non-overlapping, order-preserving windows (their concatenation
restores the input), each chunk has 1..5 segments with text the space-joined
member texts and end_time the end time of its last segment, every window
except possibly the last has exactly 5 segments, 12 segments yield window
sizes [5, 5, 2], and empty input yields no chunks. -/
theorem group_by_topic_spec {α : Type} (segs : List (Segment α)) :
    ((group_by_topic 5 segs).map (fun c => c.segments)).flatten = segs ∧
    (∀ c ∈ group_by_topic 5 segs,
      c.segments ≠ [] ∧ c.segments.length ≤ 5 ∧
      c.text = String.intercalate " " (c.segments.map (fun seg => seg.text)) ∧
      ∃ lastSeg, c.segments.getLast? = some lastSeg ∧ c.end_time = lastSeg.end_time) ∧
    (∀ x ∈ ((group_by_topic 5 segs).map (fun c => c.segments.length)).dropLast, x = 5) ∧
    (segs.length = 12 →
      (group_by_topic 5 segs).map (fun c => c.segments.length) = [5, 5, 2]) ∧
    group_by_topic 5 ([] : List (Segment α)) = [] := by
  refine ⟨group_join_aux 5 segs.length segs le_rfl,
    group_mem_aux 5 (by omega) segs.length segs le_rfl, ?_, ?_, by simp [group_by_topic]⟩
  · rw [group_lens_aux segs.length segs le_rfl]
    exact windowLens5_dropLast segs.length
  · intro h12
    rw [group_lens_aux segs.length segs le_rfl, h12]
    have e1 := windowLens5_succ 11
    have e2 := windowLens5_succ 6
    have e3 := windowLens5_succ 1
    norm_num at e1 e2 e3
    rw [e1, e2, e3]
    simp [windowLens5]

/-- Concrete twelve segments for the segmenter witness. -/
def segsW : List (Segment Nat) :=
  (List.range 12).map (fun i => { index := i + 1, text := "s", start_time := i, end_time := i + 1 })

/-- Witness for group_by_topic_spec at a concrete list of 12 segments. -/
theorem group_by_topic_spec_witness :
    segsW.length = 12 ∧
    (group_by_topic 5 segsW).map (fun c => c.segments.length) = [5, 5, 2] :=
  ⟨by decide, (group_by_topic_spec segsW).2.2.2.1 (by decide)⟩

/-! ## Question-count clamping theorem. -/

/-- Claim C10: the requested question count is clamped into 10..20 before
selection: an unparseable count or one below 10 becomes 10, one above 20
becomes 20, and the effective count always lies in 10..20. -/
theorem question_count_clamp :
    (∀ x : Option Int, 10 ≤ clampQuestionCount x ∧ clampQuestionCount x ≤ 20) ∧
    clampQuestionCount none = 10 ∧
    (∀ n : Int, n < 10 → clampQuestionCount (some n) = 10) ∧
    (∀ n : Int, 20 < n → clampQuestionCount (some n) = 20) ∧
    (∀ n : Int, 10 ≤ n → n ≤ 20 → clampQuestionCount (some n) = n) := by
  refine ⟨?_, rfl, ?_, ?_, ?_⟩
  · intro x
    cases x with
    | none => simp [clampQuestionCount]
    | some n =>
      simp only [clampQuestionCount]
      split
      · omega
      · split <;> omega
  · intro n h
    simp [clampQuestionCount, h]
  · intro n h
    simp only [clampQuestionCount]
    rw [if_neg (by omega), if_pos (by omega)]
  · intro n h1 h2
    simp only [clampQuestionCount]
    rw [if_neg (by omega), if_neg (by omega)]

/-- Witness for question_count_clamp at the requests 25 and parse failure. -/
theorem question_count_clamp_witness :
    (10 ≤ clampQuestionCount (some 25) ∧ clampQuestionCount (some 25) ≤ 20) ∧
    clampQuestionCount (some 25) = 20 ∧ clampQuestionCount none = 10 :=
  ⟨question_count_clamp.1 (some 25),
    question_count_clamp.2.2.2.1 25 (by decide), question_count_clamp.2.1⟩

end VLS
